import Mathlib

/-!
Shallow embedding of the upgrade/install core of `edgedb-cli`
(`src/server/upgrade.rs`, `src/server/install.rs`).

Modelling conventions:
* Machine effects (service stop/start, package install, logical dump and
  restore, filesystem rename, init, running the server directly) are recorded
  as `Event`s in an output trace, in program order.  An event is appended
  whenever the code invokes the corresponding operation; an oracle in `Env`
  then decides whether that invocation succeeds.
* Fallible external collaborators (the `Method` trait, `control`, `detect`,
  `init`, the connection builder) are modelled by oracles in `Env`.
* `anyhow::Result` is modelled by a success flag: every embedded function
  returns its emitted trace together with `true` (Ok) or `false` (Err).
* `std::process::exit` in `install` is modelled by a dedicated outcome
  constructor, distinct from the error outcome.
* Versions are strings ordered lexicographically.  Modelled from the spec:
  `Version` is an "opaque ordered string-like version tag" whose comparison
  is "a total order consistent with greater = newer"; the concrete ordering
  lives outside the given sources, so the String order stands in for it.
-/

namespace EdgedbCli

/-- Version tags, modelled from the spec as ordered strings. -/
abbrev Version := String

/-- Lexicographic strict order on char lists, by code point. -/
def charListLt : List Char → List Char → Bool
  | [], [] => false
  | [], _ :: _ => true
  | _ :: _, [] => false
  | a :: as, b :: bs =>
    if a.toNat < b.toNat then true
    else if b.toNat < a.toNat then false
    else charListLt as bs

/-- Lexicographic strict order on strings, the model's version order. -/
def strLt (a b : String) : Bool := charListLt a.data b.data

/-- Boolean rendering of the derived `>=` on `Version<String>` used by the
skip checks (`old_ver >= &new.full_version()`). -/
def vge (a b : Version) : Bool := !(strLt a b)

/-- Boolean rendering of strict `<` on versions. -/
def vlt (a b : Version) : Bool := strLt a b

/-- Installation channels (`InstallMethod` enum from `server/methods.rs`,
outside the given sources; the upgrade core only groups and compares by it). -/
inductive InstallMethod
  | package
  | docker
  deriving DecidableEq, Repr

/-- Sort key used by the `BTreeMap<InstallMethod, _>` grouping. -/
def InstallMethod.idx : InstallMethod → Nat
  | .package => 0
  | .docker => 1

/-- Version queries (`detect::VersionQuery`): stable with optional exact
version, or nightly. -/
inductive VersionQuery
  | stable (v : Option Version)
  | nightly
  deriving DecidableEq, Repr

/-- Accessor `VersionQuery::is_nightly`. -/
def VersionQuery.is_nightly : VersionQuery → Bool
  | .nightly => true
  | .stable _ => false

/-- Modelled from the spec: `VersionQuery::new(nightly, version)` used by
`install` (defined outside the given sources): nightly flag wins, otherwise a
stable query with the optional pinned version. -/
def VersionQuery.new (nightly : Bool) (version : Option Version) : VersionQuery :=
  if nightly then .nightly else .stable version

/-- One record returned by `Method::installed_versions()`. -/
structure InstalledRecord where
  major_version : Version
  version : Version
  revision : String
  nightly : Bool
  deriving DecidableEq, Repr

/-- Modelled from the spec: `full_version()` of an installed record combines
version and revision (the log format is `{version}-{revision}`). -/
def InstalledRecord.full_version (r : InstalledRecord) : Version :=
  r.version ++ "-" ++ r.revision

/-- Result of resolving a `VersionQuery` via `Method::get_version`. -/
structure InstallCandidate where
  package_name : String
  major_version : Version
  version : Version
  revision : String
  deriving DecidableEq, Repr

/-- Modelled from the spec: `full_version()` of an install candidate combines
version and revision. -/
def InstallCandidate.full_version (c : InstallCandidate) : Version :=
  c.version ++ "-" ++ c.revision

/-- Modelled from the spec: `VersionQuery.matches(record)` — for
`Stable(Some(v))` true iff the record's version equals `v` exactly, for
`Stable(None)` true for any non-nightly record, for `Nightly` true iff the
record is flagged nightly (`installed_matches` lives outside the given
sources). -/
def installed_matches : VersionQuery → InstalledRecord → Bool
  | .stable (some v), r => r.version == v
  | .stable none, r => !r.nightly
  | .nightly, r => r.nightly

/-- Start configuration recorded in instance metadata (opaque payload here). -/
inductive StartConf
  | auto
  | manual
  deriving DecidableEq, Repr

/-- Persisted per-instance metadata (`init::Metadata`), the fields the
upgrade core reads. -/
structure Metadata where
  method : InstallMethod
  version : Version
  nightly : Bool
  port : Nat
  start_conf : StartConf
  deriving DecidableEq, Repr

/-- In-memory `Instance` from `upgrade.rs`. -/
structure Instance where
  name : String
  meta : Metadata
  system : Bool
  data_dir : String
  source : Option Version
  version : Option Version
  deriving DecidableEq, Repr

/-- The ephemeral `UpgradeMeta` marker. -/
structure UpgradeMeta where
  source : Version
  target : Version
  started : Nat
  pid : Nat
  deriving DecidableEq, Repr

/-- The persisted `BackupMeta`. -/
structure BackupMeta where
  timestamp : Nat
  deriving DecidableEq, Repr

/-- Settings passed to `Method::install`. -/
structure Settings where
  method : InstallMethod
  package_name : String
  major_version : Version
  version : Version
  nightly : Bool
  extra : List (String × String)
  deriving DecidableEq, Repr

/-- Options handed to `init` by `reinit_and_restore` (`options::Init`); the
upgrade marker is carried unserialised. -/
structure InitOptions where
  name : String
  system : Bool
  interactive : Bool
  nightly : Bool
  version : Option Version
  method : Option InstallMethod
  port : Nat
  start_conf : StartConf
  inhibit_user_creation : Bool
  inhibit_start : Bool
  upgrade_marker : Option UpgradeMeta
  overwrite : Bool
  default_user : String
  default_database : String
  deriving DecidableEq, Repr

/-- CLI options of `server upgrade` (`options::Upgrade`), the fields the core
reads. -/
structure Upgrade where
  name : Option String
  nightly : Bool
  to_nightly : Bool
  to_version : Option Version
  force : Bool
  deriving DecidableEq, Repr

/-- CLI options of `server install` (`options::Install`), the fields the core
reads. -/
structure InstallOptions where
  method : Option InstallMethod
  interactive : Bool
  nightly : Bool
  version : Option Version
  deriving DecidableEq, Repr

/-- The upgrade plan (`ToDo` in `upgrade.rs`). -/
inductive ToDo
  | minorUpgrade
  | instanceUpgrade (name : String) (version : VersionQuery)
  | nightlyUpgrade
  deriving DecidableEq, Repr

/-- Observable machine effects and messages, recorded in program order.  An
event marks the invocation of the operation; the `Env` oracle separately
decides whether the invocation succeeds. -/
inductive Event
  | startInst (name : String)
  | stopInst (name : String)
  | warnStopFailed (name : String)
  | removeOldDump (name : String)
  | dumpAll (name : String)
  | installPkg (s : Settings)
  | renameDir (src : String) (dst : String)
  | writeBackupMetaFile (path : String) (meta : BackupMeta)
  | initInstance (opts : InitOptions)
  | runServer (name : String)
  | restoreAll (name : String)
  | killServer (name : String)
  | warnMethodUnavailable (m : InstallMethod) (names : List String)
  | warnBadMetadata (name : String)
  | warnInstanceNightly
  | warnNoInstances (nightly : Bool)
  | infoUpToDateSkip (names : List String)
  | msgAlreadyInstalled (major : Version) (version : Version) (revision : String)
  | msgDifferentChannel (major : Version) (installedVia : InstallMethod)
      (requested : InstallMethod)
  | msgFormatError
  deriving DecidableEq, Repr

/-- Filesystem-mutating events among `Event` (used to state backup-safety). -/
def Event.isFsEffect : Event → Bool
  | .removeOldDump _ => true
  | .renameDir _ _ => true
  | .writeBackupMetaFile _ _ => true
  | .initInstance _ => true
  | _ => false

/-- One directory entry seen while scanning the instances root: whether the
entry itself could be listed, whether its file type could be queried, whether
it is a directory, its UTF-8 name if any, and the parsed `metadata.json` if
readable and valid. -/
structure DirEntrySpec where
  read_ok : Bool
  file_type_ok : Bool
  is_dir : Bool
  file_name : Option String
  metadata : Option Metadata
  deriving DecidableEq, Repr

/-- Oracle environment for the external collaborators: the `Method` trait,
`control` handles, `detect`, `init`, the connection builder, the filesystem
and the clock.  Per-instance oracles are keyed by instance name. -/
structure Env where
  get_version : VersionQuery → Option InstallCandidate
  installed_versions : Option (List InstalledRecord)
  get_control_ok : String → Bool
  start_ok : String → Bool
  stop_ok : String → Bool
  get_socket_ok : String → Bool
  dump_path_exists : String → Bool
  remove_dump_ok : String → Bool
  dump_connect_ok : String → Bool
  dump_all_ok : String → Bool
  install_ok : Bool
  rename_ok : String → Bool
  write_backup_meta_ok : String → Bool
  init_ok : String → Bool
  run_command_ok : String → Bool
  spawn_ok : String → Bool
  restore_connect_ok : String → Bool
  restore_all_ok : String → Bool
  current_os_ok : Bool
  get_available_ok : Bool
  avail_supported : InstallMethod → Bool
  make_method_ok : InstallMethod → Bool
  data_path_exists : Bool
  entries : List DirEntrySpec
  valid_name : String → Bool
  instances_root : String
  now : Nat
  pid : Nat

/-- Result of an embedded `anyhow::Result<()>` computation: the emitted trace
and a success flag. -/
abbrev Res := List Event × Bool

/-- Embeds `interpret_options`: choose the plan, warning when `--nightly` is
combined with an instance name. -/
def interpret_options (options : Upgrade) : List Event × ToDo :=
  match options.name with
  | some name =>
    let warn := if options.nightly then [Event.warnInstanceNightly] else []
    let nver :=
      if options.to_nightly then VersionQuery.nightly
      else
        match options.to_version with
        | some ver => VersionQuery.stable (some ver)
        | none => VersionQuery.stable none
    (warn, ToDo.instanceUpgrade name nver)
  | none =>
    if options.nightly then ([], ToDo.nightlyUpgrade)
    else ([], ToDo.minorUpgrade)

/-- Embeds `InstanceIterator::read_item`: propagate entry-listing and
file-type errors, silently skip non-directories, invalid or non-UTF-8 names,
warn and skip on unreadable metadata, otherwise yield the instance. -/
def read_item (valid_name : String → Bool) (instances_root : String)
    (e : DirEntrySpec) : List Event × Except Unit (Option Instance) :=
  if !e.read_ok then ([], Except.error ())
  else if !e.file_type_ok then ([], Except.error ())
  else if !e.is_dir then ([], Except.ok none)
  else
    match e.file_name with
    | some name =>
      if !valid_name name then ([], Except.ok none)
      else
        match e.metadata with
        | some meta =>
          ([], Except.ok (some
            { name := name, meta := meta, system := false,
              data_dir := instances_root ++ "/" ++ name,
              source := none, version := none }))
        | none => ([Event.warnBadMetadata name], Except.ok none)
    | none => ([], Except.ok none)

/-- Embeds the `InstanceIterator` driven through
`collect::<Result<Vec<_>,_>>()`: entries are read in order, `Ok(None)` items
are skipped, and the first `Err` aborts the whole collection. -/
def instancesLoop (valid_name : String → Bool) (instances_root : String) :
    List DirEntrySpec → List Event × Except Unit (List Instance)
  | [] => ([], Except.ok [])
  | e :: rest =>
    let (t, r) := read_item valid_name instances_root e
    match r with
    | Except.error () => (t, Except.error ())
    | Except.ok none =>
      let (t2, r2) := instancesLoop valid_name instances_root rest
      (t ++ t2, r2)
    | Except.ok (some i) =>
      let (t2, r2) := instancesLoop valid_name instances_root rest
      (t ++ t2,
        match r2 with
        | Except.ok l => Except.ok (i :: l)
        | Except.error () => Except.error ())

/-- Embeds `all_instances`: an absent instances root yields an empty list. -/
def all_instances (env : Env) : List Event × Except Unit (List Instance) :=
  if !env.data_path_exists then ([], Except.ok [])
  else instancesLoop env.valid_name env.instances_root env.entries

/-- Embeds `get_instances`: discovery filtered by the plan. -/
def get_instances (env : Env) (todo : ToDo) :
    List Event × Except Unit (List Instance) :=
  let (t, r) := all_instances env
  match r with
  | Except.error () => (t, Except.error ())
  | Except.ok insts =>
    let filtered :=
      match todo with
      | ToDo.minorUpgrade => insts.filter (fun i => !i.meta.nightly)
      | ToDo.nightlyUpgrade => insts.filter (fun i => i.meta.nightly)
      | ToDo.instanceUpgrade name _ => insts.filter (fun i => i.name == name)
    (t, Except.ok filtered)

/-- Embeds `get_installed`: the first installed record matching the query, or
`none` if no record matches; the outer `Option` is the `QueryError` of
`installed_versions()`. -/
def findInstalled (q : VersionQuery) : List InstalledRecord → Option Version
  | [] => none
  | r :: rest =>
    if !installed_matches q r then findInstalled q rest
    else some r.full_version

/-- Embeds the `Env`-level `get_installed` call: `none` when
`installed_versions()` itself fails. -/
def get_installed (env : Env) (q : VersionQuery) : Option (Option Version) :=
  match env.installed_versions with
  | none => none
  | some vers => some (findInstalled q vers)

/-- Embeds `Instance::upgrade_meta`: the recorded source/target versions, or
the literal `"unknown"` where unset, with the current time and process id. -/
def Instance.upgrade_meta (inst : Instance) (now pid : Nat) : UpgradeMeta :=
  { source := inst.source.getD "unknown"
  , target := inst.version.getD "unknown"
  , started := now
  , pid := pid }

/-- Embeds `dump_instance`: remove a stale dump if present, connect, then
dump all databases. -/
def dump_instance (env : Env) (inst : Instance) : Res :=
  let t0 :=
    if env.dump_path_exists inst.name then [Event.removeOldDump inst.name]
    else []
  if env.dump_path_exists inst.name && !env.remove_dump_ok inst.name then
    (t0, false)
  else if !env.dump_connect_ok inst.name then (t0, false)
  else
    let t1 := t0 ++ [Event.dumpAll inst.name]
    if !env.dump_all_ok inst.name then (t1, false) else (t1, true)

/-- Embeds `dump_and_stop`: obtain the control handle, ensure the instance is
started, dump it through its socket, then stop it.  Every failure is fatal. -/
def dump_and_stop (env : Env) (inst : Instance) : Res :=
  if !env.get_control_ok inst.name then ([], false)
  else
    let t0 := [Event.startInst inst.name]
    if !env.start_ok inst.name then (t0, false)
    else if !env.get_socket_ok inst.name then (t0, false)
    else
      let (t1, ok1) := dump_instance env inst
      if !ok1 then (t0 ++ t1, false)
      else
        let t2 := t0 ++ t1 ++ [Event.stopInst inst.name]
        if !env.stop_ok inst.name then (t2, false) else (t2, true)

/-- Embeds `reinit_and_restore`: rename the data directory to
`<dataDir>.backup`, write `backup.json` inside it, re-`init` with the upgrade
marker, run the server directly under a `ProcessGuard`, restore, drop the
guard, restart through the supervisor.  Modelled from the spec:
`ProcessGuard` terminates the child process when its handle is dropped, which
Rust does on every exit path of the scope; the model therefore emits
`killServer` on each exit path after a successful spawn. -/
def reinit_and_restore (env : Env) (inst : Instance) (version : Version)
    (nightly : Bool) (method : InstallMethod) : Res :=
  let backup := inst.data_dir ++ ".backup"
  let t1 := [Event.renameDir inst.data_dir backup]
  if !env.rename_ok inst.name then (t1, false)
  else
    let t2 := t1 ++
      [Event.writeBackupMetaFile (backup ++ "/backup.json") ⟨env.now⟩]
    if !env.write_backup_meta_ok inst.name then (t2, false)
    else
      let meta := inst.upgrade_meta env.now env.pid
      let initOpts : InitOptions :=
        { name := inst.name, system := inst.system, interactive := false
        , nightly := nightly, version := some version, method := some method
        , port := inst.meta.port, start_conf := inst.meta.start_conf
        , inhibit_user_creation := true, inhibit_start := true
        , upgrade_marker := some meta, overwrite := true
        , default_user := "edgedb", default_database := "edgedb" }
      let t3 := t2 ++ [Event.initInstance initOpts]
      if !env.init_ok inst.name then (t3, false)
      else if !env.get_control_ok inst.name then (t3, false)
      else if !env.run_command_ok inst.name then (t3, false)
      else if !env.spawn_ok inst.name then (t3, false)
      else
        let t4 := t3 ++ [Event.runServer inst.name]
        if !env.get_socket_ok inst.name then
          (t4 ++ [Event.killServer inst.name], false)
        else if !env.restore_connect_ok inst.name then
          (t4 ++ [Event.killServer inst.name], false)
        else
          let t5 := t4 ++ [Event.restoreAll inst.name]
          if !env.restore_all_ok inst.name then
            (t5 ++ [Event.killServer inst.name], false)
          else
            let t6 := t5 ++ [Event.killServer inst.name,
                             Event.startInst inst.name]
            if !env.start_ok inst.name then (t6, false) else (t6, true)

/-- Sorted-insertion step of the `BTreeMap<K, Vec<Instance>>` grouping:
append to an existing key's vector, otherwise insert the key in order. -/
def insertGrouped (lt : String → String → Bool) (k : String) (v : Instance) :
    List (String × List Instance) → List (String × List Instance)
  | [] => [(k, [v])]
  | (k2, vs) :: rest =>
    if k = k2 then (k2, vs ++ [v]) :: rest
    else if lt k k2 then (k, [v]) :: (k2, vs) :: rest
    else (k2, vs) :: insertGrouped lt k v rest

/-- Embeds the `BTreeMap<Version, Vec<Instance>>` grouping of
`do_minor_upgrade`: instances grouped by `meta.version`, keys in ascending
order, insertion order preserved inside a group. -/
def groupByMajor (l : List Instance) : List (String × List Instance) :=
  l.foldl (fun acc i => insertGrouped strLt i.meta.version i acc) []

/-- Best-effort stop loop of `do_minor_upgrade`: obtaining the control handle
is fatal, a failing stop only logs a warning. -/
def stopLoop (env : Env) : List Instance → Res
  | [] => ([], true)
  | inst :: rest =>
    if !env.get_control_ok inst.name then ([], false)
    else
      let ev :=
        if env.stop_ok inst.name then [Event.stopInst inst.name]
        else [Event.stopInst inst.name, Event.warnStopFailed inst.name]
      let (t, ok) := stopLoop env rest
      (ev ++ t, ok)

/-- Start loop of `do_minor_upgrade`: both obtaining the handle and the start
itself are fatal. -/
def startLoop (env : Env) : List Instance → Res
  | [] => ([], true)
  | inst :: rest =>
    if !env.get_control_ok inst.name then ([], false)
    else
      let t0 := [Event.startInst inst.name]
      if !env.start_ok inst.name then (t0, false)
      else
        let (t, ok) := startLoop env rest
        (t0 ++ t, ok)

/-- Destructive body of one major-version group in `do_minor_upgrade`
(everything after the up-to-date check): best-effort stop of every instance,
one install of the group's package, then start of every instance.  The
instance list is the group's instances with `source`/`target` already
recorded. -/
def minorGroupBody (env : Env) (method : InstallMethod) (version : String)
    (insts2 : List Instance) (new : InstallCandidate) : Res :=
  let (t1, ok1) := stopLoop env insts2
  if !ok1 then (t1, false)
  else
    let s : Settings :=
      { method := method, package_name := new.package_name
      , major_version := version, version := new.version
      , nightly := false, extra := [] }
    let t2 := t1 ++ [Event.installPkg s]
    if !env.install_ok then (t2, false)
    else
      let (t3, ok3) := startLoop env insts2
      (t2 ++ t3, ok3)

/-- Per-group loop of `do_minor_upgrade`.  Mirrors the source faithfully,
including the early `return Ok(())` taken when a group is already up to date:
that return ends the whole function, so the remaining major-version groups
are not processed. -/
def minorGo (env : Env) (method : InstallMethod) (force : Bool) :
    List (String × List Instance) → Res
  | [] => ([], true)
  | (version, instances) :: rest =>
    let version_query := VersionQuery.stable (some version)
    match env.get_version version_query with
    | none => ([], false)
    | some new =>
      match env.installed_versions with
      | none => ([], false)
      | some vers =>
        let old := findInstalled version_query vers
        if !force &&
           (match old with
            | some old_ver => vge old_ver new.full_version
            | none => false) then
          ([Event.infoUpToDateSkip (instances.map (fun i => i.name))], true)
        else
          let insts2 := instances.map (fun i =>
            { i with source := old, version := some new.full_version })
          let (tb, okb) := minorGroupBody env method version insts2 new
          if !okb then (tb, false)
          else
            let (t4, ok4) := minorGo env method force rest
            (tb ++ t4, ok4)

/-- Embeds `do_minor_upgrade`: group by major version, then run the loop. -/
def do_minor_upgrade (env : Env) (method : InstallMethod)
    (instances : List Instance) (options : Upgrade) : Res :=
  minorGo env method options.force (groupByMajor instances)

/-- Dump loop of `do_nightly_upgrade`: any failure is fatal. -/
def dumpLoop (env : Env) : List Instance → Res
  | [] => ([], true)
  | inst :: rest =>
    let (t, ok) := dump_and_stop env inst
    if !ok then (t, false)
    else
      let (t2, ok2) := dumpLoop env rest
      (t ++ t2, ok2)

/-- Reinit loop of `do_nightly_upgrade`: any failure is fatal. -/
def reinitLoop (env : Env) (version : Version) (nightly : Bool)
    (method : InstallMethod) : List Instance → Res
  | [] => ([], true)
  | inst :: rest =>
    let (t, ok) := reinit_and_restore env inst version nightly method
    if !ok then (t, false)
    else
      let (t2, ok2) := reinitLoop env version nightly method rest
      (t ++ t2, ok2)

/-- Embeds `do_nightly_upgrade`: resolve once for the whole set, skip when up
to date unless forced, then dump-and-stop each instance, install once, and
reinit-and-restore each instance. -/
def do_nightly_upgrade (env : Env) (method : InstallMethod)
    (instances : List Instance) (options : Upgrade) : Res :=
  match env.get_version VersionQuery.nightly with
  | none => ([], false)
  | some new =>
    match env.installed_versions with
    | none => ([], false)
    | some vers =>
      let old := findInstalled VersionQuery.nightly vers
      if !options.force &&
         (match old with
          | some old_ver => vge old_ver new.full_version
          | none => false) then
        ([Event.infoUpToDateSkip (instances.map (fun i => i.name))], true)
      else
        let insts2 := instances.map (fun i =>
          { i with source := old, version := some new.full_version })
        let (t1, ok1) := dumpLoop env insts2
        if !ok1 then (t1, false)
        else
          let s : Settings :=
            { method := method, package_name := new.package_name
            , major_version := new.major_version, version := new.version
            , nightly := true, extra := [] }
          let t2 := t1 ++ [Event.installPkg s]
          if !env.install_ok then (t2, false)
          else
            let (t3, ok3) :=
              reinitLoop env new.major_version true method insts2
            (t2 ++ t3, ok3)

/-- Embeds `do_instance_upgrade`: resolve the query, skip when up to date
unless forced, then dump-and-stop, install, and reinit-and-restore the one
instance. -/
def do_instance_upgrade (env : Env) (method : InstallMethod) (inst : Instance)
    (version : VersionQuery) (options : Upgrade) : Res :=
  match env.get_version version with
  | none => ([], false)
  | some new =>
    match env.installed_versions with
    | none => ([], false)
    | some vers =>
      let old := findInstalled version vers
      if !options.force &&
         (match old with
          | some old_ver => vge old_ver new.full_version
          | none => false) then
        ([Event.infoUpToDateSkip [inst.name]], true)
      else
        let inst2 :=
          { inst with source := old, version := some new.full_version }
        let (t1, ok1) := dump_and_stop env inst2
        if !ok1 then (t1, false)
        else
          let s : Settings :=
            { method := method, package_name := new.package_name
            , major_version := new.major_version, version := new.version
            , nightly := version.is_nightly, extra := [] }
          let t2 := t1 ++ [Event.installPkg s]
          if !env.install_ok then (t2, false)
          else
            let (t3, ok3) :=
              reinit_and_restore env inst2 new.version version.is_nightly
                method
            (t2 ++ t3, ok3)

/-- Sorted-insertion step of the `BTreeMap<InstallMethod, Vec<Instance>>`
grouping of `upgrade`. -/
def insertByMethod (m : InstallMethod) (v : Instance) :
    List (InstallMethod × List Instance) → List (InstallMethod × List Instance)
  | [] => [(m, [v])]
  | (m2, vs) :: rest =>
    if m = m2 then (m2, vs ++ [v]) :: rest
    else if m.idx < m2.idx then (m, [v]) :: (m2, vs) :: rest
    else (m2, vs) :: insertByMethod m v rest

/-- Embeds the grouping of discovered instances by `metadata.method`. -/
def groupByMethod (l : List Instance) :
    List (InstallMethod × List Instance) :=
  l.foldl (fun acc i => insertByMethod i.meta.method i acc) []

/-- Per-instance loop of the `InstanceUpgrade` dispatch arm: any failure is
fatal. -/
def instanceLoop (env : Env) (method : InstallMethod)
    (version : VersionQuery) (options : Upgrade) : List Instance → Res
  | [] => ([], true)
  | inst :: rest =>
    let (t, ok) := do_instance_upgrade env method inst version options
    if !ok then (t, false)
    else
      let (t2, ok2) := instanceLoop env method version options rest
      (t ++ t2, ok2)

/-- Embeds the method-group loop of `upgrade`: an unavailable method is
warned about (naming the method and its instances) and skipped with
`continue`; an available one is instantiated and dispatched by plan kind, a
handler failure aborting the whole loop. -/
def processGroups (env : Env) (todo : ToDo) (options : Upgrade) :
    List (InstallMethod × List Instance) → Res
  | [] => ([], true)
  | (meth, insts) :: rest =>
    if !env.avail_supported meth then
      let (t, ok) := processGroups env todo options rest
      (Event.warnMethodUnavailable meth (insts.map (fun i => i.name)) :: t, ok)
    else if !env.make_method_ok meth then ([], false)
    else
      let (t1, ok1) :=
        match todo with
        | ToDo.minorUpgrade => do_minor_upgrade env meth insts options
        | ToDo.nightlyUpgrade => do_nightly_upgrade env meth insts options
        | ToDo.instanceUpgrade _ version =>
          instanceLoop env meth version options insts
      if !ok1 then (t1, false)
      else
        let (t2, ok2) := processGroups env todo options rest
        (t1 ++ t2, ok2)

/-- Embeds the top-level `upgrade`: interpret the options, discover and
filter instances, return successfully with a warning when none match, detect
the OS and the available methods, then process the method groups. -/
def upgrade (env : Env) (options : Upgrade) : Res :=
  let (t0, todo) := interpret_options options
  let (t1, r) := get_instances env todo
  match r with
  | Except.error () => (t0 ++ t1, false)
  | Except.ok instances =>
    if instances.isEmpty then
      (t0 ++ t1 ++ [Event.warnNoInstances options.nightly], true)
    else
      let groups := groupByMethod instances
      if !env.current_os_ok then (t0 ++ t1, false)
      else if !env.get_available_ok then (t0 ++ t1, false)
      else
        let (t2, ok) := processGroups env todo options groups
        (t0 ++ t1 ++ t2, ok)

/-- Modelled from the spec: the dedicated `exit_codes::ALREADY_INSTALLED`
process exit code (its module is outside the given sources); the only fact
the spec relies on is that it is a dedicated code distinct from the generic
failure exit code. -/
def ALREADY_INSTALLED : Nat := 2

/-- Generic process failure exit code, distinct from `ALREADY_INSTALLED`. -/
def GENERIC_FAILURE : Nat := 1

/-- Outcome of the embedded `install` command: normal return, error return,
or direct process exit with a code. -/
inductive InstallOutcome
  | ok
  | err
  | exited (code : Nat)
  deriving DecidableEq, Repr

/-- Oracle environment for `install`: platform detection, the instantiated
methods with their `installed_versions()` results (`none` models a
`QueryError`), the settings-builder pipeline result, and the install step. -/
structure InstallEnv where
  current_os_ok : Bool
  get_available_ok : Bool
  package_supported : Bool
  instantiate_ok : Bool
  methods : List (InstallMethod × Option (List InstalledRecord))
  settings : Option Settings
  install_ok : Bool

/-- First installed record matching the query in one method's list. -/
def findConflict (q : VersionQuery) : List InstalledRecord →
    Option InstalledRecord
  | [] => none
  | r :: rest =>
    if installed_matches q r then some r else findConflict q rest

/-- Embeds the nested conflict-detection loop of `install`: walk the methods
in order; a failing `installed_versions()` is a generic error; the first
matching installed record prints the same-method or different-channel message
and exits with `ALREADY_INSTALLED`; `none` means no conflict was found. -/
def conflictCheck (eff : InstallMethod) (q : VersionQuery) :
    List (InstallMethod × Option (List InstalledRecord)) →
    List Event × Option InstallOutcome
  | [] => ([], none)
  | (_, none) :: _ => ([], some InstallOutcome.err)
  | (kind, some vers) :: rest =>
    match findConflict q vers with
    | some r =>
      let ev :=
        if eff = kind then
          Event.msgAlreadyInstalled r.major_version r.version r.revision
        else Event.msgDifferentChannel r.major_version kind eff
      ([ev], some (InstallOutcome.exited ALREADY_INSTALLED))
    | none => conflictCheck eff q rest

/-- Embeds `install`: bail early when no method was requested, the run is not
interactive and the default package method is unsupported; otherwise detect
conflicts across all methods, then build settings and delegate to the chosen
method's `install`. -/
def install (env : InstallEnv) (options : InstallOptions) :
    List Event × InstallOutcome :=
  if !env.current_os_ok then ([], InstallOutcome.err)
  else if !env.get_available_ok then ([], InstallOutcome.err)
  else if options.method.isNone && !options.interactive &&
          !env.package_supported then
    ([Event.msgFormatError], InstallOutcome.err)
  else if !env.instantiate_ok then ([], InstallOutcome.err)
  else
    let eff := options.method.getD InstallMethod.package
    let q := VersionQuery.new options.nightly options.version
    let (t, outcome) := conflictCheck eff q env.methods
    match outcome with
    | some o => (t, o)
    | none =>
      match env.settings with
      | none => (t, InstallOutcome.err)
      | some s =>
        let t2 := t ++ [Event.installPkg s]
        if !env.install_ok then (t2, InstallOutcome.err)
        else (t2, InstallOutcome.ok)

/-- Per-entry warning produced by discovery: the instance name of a directory
entry with a valid name whose metadata could not be read. -/
def entryWarn (valid_name : String → Bool) (e : DirEntrySpec) : Option String :=
  if e.read_ok && e.file_type_ok && e.is_dir then
    match e.file_name with
    | some name =>
      if valid_name name && e.metadata.isNone then some name else none
    | none => none
  else none

/-- Per-entry instance produced by discovery: the parsed instance of a
directory entry with a valid name and readable metadata. -/
def entryInstance (valid_name : String → Bool) (instances_root : String)
    (e : DirEntrySpec) : Option Instance :=
  if e.read_ok && e.file_type_ok && e.is_dir then
    match e.file_name, e.metadata with
    | some name, some meta =>
      if valid_name name then
        some { name := name, meta := meta, system := false,
               data_dir := instances_root ++ "/" ++ name,
               source := none, version := none }
      else none
    | _, _ => none
  else none

/-- First conflicting (method, record) pair in the conflict-detection scan,
assuming the scan gets that far without a query error. -/
def firstMatch (q : VersionQuery) :
    List (InstallMethod × Option (List InstalledRecord)) →
    Option (InstallMethod × InstalledRecord)
  | [] => none
  | (_, none) :: _ => none
  | (kind, some vers) :: rest =>
    match findConflict q vers with
    | some r => some (kind, r)
    | none => firstMatch q rest

/-- Fixture: an environment where every external operation succeeds, two
stable major versions are known (`1` resolving to `1-5` and `2` to `2-1`),
and the installed records are `1-5` (up to date for major `1`) and `2-0`
(outdated for major `2`). -/
def envAllOk : Env :=
  { get_version := fun q =>
      match q with
      | .stable (some "1") => some ⟨"edgedb-1", "1", "1", "5"⟩
      | .stable (some "2") => some ⟨"edgedb-2", "2", "2", "1"⟩
      | _ => none
  , installed_versions := some [⟨"1", "1", "5", false⟩, ⟨"2", "2", "0", false⟩]
  , get_control_ok := fun _ => true
  , start_ok := fun _ => true
  , stop_ok := fun _ => true
  , get_socket_ok := fun _ => true
  , dump_path_exists := fun _ => false
  , remove_dump_ok := fun _ => true
  , dump_connect_ok := fun _ => true
  , dump_all_ok := fun _ => true
  , install_ok := true
  , rename_ok := fun _ => true
  , write_backup_meta_ok := fun _ => true
  , init_ok := fun _ => true
  , run_command_ok := fun _ => true
  , spawn_ok := fun _ => true
  , restore_connect_ok := fun _ => true
  , restore_all_ok := fun _ => true
  , current_os_ok := true
  , get_available_ok := true
  , avail_supported := fun _ => true
  , make_method_ok := fun _ => true
  , data_path_exists := true
  , entries := []
  , valid_name := fun _ => true
  , instances_root := "/i"
  , now := 100
  , pid := 42 }

/-- Fixture: a non-nightly instance on major version `1`. -/
def instFixA : Instance :=
  ⟨"a", ⟨.package, "1", false, 5656, .auto⟩, false, "/i/a", none, none⟩

/-- Fixture: a non-nightly instance on major version `2`. -/
def instFixB : Instance :=
  ⟨"b", ⟨.package, "2", false, 5657, .auto⟩, false, "/i/b", none, none⟩

/-- Fixture: default `upgrade` options, no force flag. -/
def upNoForce : Upgrade := ⟨none, false, false, none, false⟩

/-- Fixture: a readable directory entry with valid metadata. -/
def goodEntryFix : DirEntrySpec :=
  ⟨true, true, true, some "a", some ⟨.package, "1", false, 5656, .auto⟩⟩

/-- Fixture: a directory entry whose `metadata.json` cannot be parsed. -/
def badMetaEntryFix : DirEntrySpec := ⟨true, true, true, some "z", none⟩

/-- Fixture: a directory entry whose listing itself fails with an error. -/
def unreadableEntryFix : DirEntrySpec := ⟨false, true, true, none, none⟩

/-- Fixture: a name-validity predicate accepting every name. -/
def validAllFix : String → Bool := fun _ => true

/-- Fixture: an install environment where version `1` is already installed
via the docker channel while the package channel is empty. -/
def installEnvFix : InstallEnv :=
  { current_os_ok := true, get_available_ok := true, package_supported := true
  , instantiate_ok := true
  , methods := [(.package, some []), (.docker, some [⟨"1", "1", "5", false⟩])]
  , settings := some ⟨.package, "edgedb-1", "1", "1", false, []⟩
  , install_ok := true }

/-- Fixture: install options pinning version `1` with no explicit method. -/
def installOptsFix : InstallOptions := ⟨none, false, false, some "1"⟩

/-- C10: the `UpgradeMeta` marker built by `Instance::upgrade_meta` carries
the literal `"unknown"` as source when no installed version was recorded and
as target when no target version was recorded, otherwise the recorded
versions, together with the current time and process id. -/
theorem upgradeMeta_unknown_defaults (inst : Instance) (now pid : Nat) :
    (inst.source = none → (inst.upgrade_meta now pid).source = "unknown") ∧
    (∀ v, inst.source = some v → (inst.upgrade_meta now pid).source = v) ∧
    (inst.version = none → (inst.upgrade_meta now pid).target = "unknown") ∧
    (∀ v, inst.version = some v → (inst.upgrade_meta now pid).target = v) ∧
    (inst.upgrade_meta now pid).started = now ∧
    (inst.upgrade_meta now pid).pid = pid := by
  refine ⟨?_, ?_, ?_, ?_, rfl, rfl⟩
  · intro h; simp [Instance.upgrade_meta, h]
  · intro v h; simp [Instance.upgrade_meta, h]
  · intro h; simp [Instance.upgrade_meta, h]
  · intro v h; simp [Instance.upgrade_meta, h]

theorem upgradeMeta_unknown_defaults_witness :
    (Instance.upgrade_meta
        ⟨"a", ⟨.package, "1", false, 5656, .auto⟩, false, "/i/a",
         none, some "2-1"⟩ 7 9).source = "unknown" ∧
    (Instance.upgrade_meta
        ⟨"a", ⟨.package, "1", false, 5656, .auto⟩, false, "/i/a",
         none, some "2-1"⟩ 7 9).target = "2-1" :=
  ⟨(upgradeMeta_unknown_defaults
      ⟨"a", ⟨.package, "1", false, 5656, .auto⟩, false, "/i/a",
       none, some "2-1"⟩ 7 9).1 rfl,
   (upgradeMeta_unknown_defaults
      ⟨"a", ⟨.package, "1", false, 5656, .auto⟩, false, "/i/a",
       none, some "2-1"⟩ 7 9).2.2.2.1 "2-1" rfl⟩

/-- C1: evaluating the embedded `do_minor_upgrade` on two major-version
groups under one method, where the first group (major `1`, instance `a`) is
already up to date and the second (major `2`, instance `b`) is not: the
early `return Ok(())` taken for the first group ends the whole function, so
the trace is exactly the skip log for group `1` and the second group is
never stopped, installed or started — contrary to the per-group skip the
specification states. -/
theorem minor_upgrade_skip_returns_early :
    do_minor_upgrade envAllOk .package [instFixA, instFixB] upNoForce
      = ([Event.infoUpToDateSkip ["a"]], true) := rfl

/-- C5 counterexample: a directory entry whose listing fails with an I/O
error is not logged and skipped — it aborts discovery as a whole, and the
following valid instance is not returned. -/
theorem discovery_unreadable_entry_fails :
    (instancesLoop validAllFix "/i" [unreadableEntryFix, goodEntryFix]).2
        = Except.error () ∧
    (instancesLoop validAllFix "/i" [unreadableEntryFix, goodEntryFix]).1
        = [] := ⟨rfl, rfl⟩

/-- Helper: an entry whose listing or file-type query fails makes
`read_item` return an error. -/
theorem read_item_err_of_bad (valid_name : String → Bool) (root : String)
    (e : DirEntrySpec) (h : e.read_ok = false ∨ e.file_type_ok = false) :
    (read_item valid_name root e).2 = Except.error () := by
  rcases h with h | h
  · simp [read_item, h]
  · cases hr : e.read_ok <;> simp [read_item, h, hr]

/-- C5 amended: for every directory entry under the instances root whose
listing or file-type query fails with an I/O error, discovery as a whole
fails: the error propagates out of the listing (only metadata read and
parse failures are logged and skipped). -/
theorem discovery_fails_on_unreadable_entry (valid_name : String → Bool)
    (root : String) (entries : List DirEntrySpec) (e : DirEntrySpec)
    (he : e ∈ entries) (hbad : e.read_ok = false ∨ e.file_type_ok = false) :
    (instancesLoop valid_name root entries).2 = Except.error () := by
  induction entries with
  | nil => cases he
  | cons a rest ih =>
    rcases List.mem_cons.mp he with rfl | hmem
    · have h2 := read_item_err_of_bad valid_name root e hbad
      rcases hr : read_item valid_name root e with ⟨t, r⟩
      rw [hr] at h2
      simp only at h2
      subst h2
      simp [instancesLoop, hr]
    · rcases hr : read_item valid_name root a with ⟨t, r⟩
      rcases r with _ | r
      · simp [instancesLoop, hr]
      · rcases r with _ | i
        · simp [instancesLoop, hr, ih hmem]
        · simp [instancesLoop, hr, ih hmem]

theorem discovery_fails_on_unreadable_entry_witness :
    unreadableEntryFix ∈ [goodEntryFix, unreadableEntryFix] ∧
    (instancesLoop validAllFix "/i" [goodEntryFix, unreadableEntryFix]).2
      = Except.error () :=
  ⟨by decide,
   discovery_fails_on_unreadable_entry validAllFix "/i"
     [goodEntryFix, unreadableEntryFix] unreadableEntryFix (by decide)
     (Or.inl (by decide))⟩

/-- C6: a method group whose installation method is unavailable contributes
exactly one warning naming the method and every affected instance name;
processing continues with the remaining method groups, and a run consisting
only of such a group performs no operation at all and succeeds. -/
theorem unavailable_method_group_skipped (env : Env) (todo : ToDo)
    (options : Upgrade) (meth : InstallMethod) (insts : List Instance)
    (rest : List (InstallMethod × List Instance))
    (h : env.avail_supported meth = false) :
    processGroups env todo options ((meth, insts) :: rest) =
      (Event.warnMethodUnavailable meth (insts.map (fun i => i.name)) ::
         (processGroups env todo options rest).1,
       (processGroups env todo options rest).2) ∧
    processGroups env todo options [(meth, insts)] =
      ([Event.warnMethodUnavailable meth (insts.map (fun i => i.name))],
       true) := by
  constructor
  · simp [processGroups, h]
  · simp [processGroups, h]

theorem unavailable_method_group_skipped_witness :
    ({ envAllOk with avail_supported := fun _ => false } :
        Env).avail_supported .package = false ∧
    processGroups { envAllOk with avail_supported := fun _ => false }
        ToDo.minorUpgrade upNoForce [(.package, [instFixA])] =
      ([Event.warnMethodUnavailable .package ["a"]], true) :=
  ⟨rfl,
   (unavailable_method_group_skipped
      { envAllOk with avail_supported := fun _ => false }
      ToDo.minorUpgrade upNoForce .package [instFixA] [] rfl).2⟩

/-- C3: on every exit path of the embedded `reinit_and_restore` on which the
server process was run directly (a `runServer` event was emitted), the
process is also terminated (a `killServer` event is emitted), both on the
success path before the supervisor restart and on every early error
return, including a failed restore. -/
theorem reinit_server_always_killed (env : Env) (inst : Instance)
    (version : Version) (nightly : Bool) (method : InstallMethod)
    (h : Event.runServer inst.name ∈
      (reinit_and_restore env inst version nightly method).1) :
    Event.killServer inst.name ∈
      (reinit_and_restore env inst version nightly method).1 := by
  cases h1 : env.rename_ok inst.name with
  | false => simp [reinit_and_restore, h1] at h
  | true =>
  cases h2 : env.write_backup_meta_ok inst.name with
  | false => simp [reinit_and_restore, h1, h2] at h
  | true =>
  cases h3 : env.init_ok inst.name with
  | false => simp [reinit_and_restore, h1, h2, h3] at h
  | true =>
  cases h4 : env.get_control_ok inst.name with
  | false => simp [reinit_and_restore, h1, h2, h3, h4] at h
  | true =>
  cases h5 : env.run_command_ok inst.name with
  | false => simp [reinit_and_restore, h1, h2, h3, h4, h5] at h
  | true =>
  cases h6 : env.spawn_ok inst.name with
  | false => simp [reinit_and_restore, h1, h2, h3, h4, h5, h6] at h
  | true =>
    simp only [reinit_and_restore, h1, h2, h3, h4, h5, h6]
    split_ifs <;> simp_all

/-- Helper: the char-list order is irreflexive. -/
theorem charListLt_irrefl (l : List Char) : charListLt l l = false := by
  induction l with
  | nil => rfl
  | cons c cs ih => simp [charListLt, ih]

/-- Helper: the char-list order is transitive. -/
theorem charListLt_trans {a b c : List Char} (h1 : charListLt a b = true)
    (h2 : charListLt b c = true) : charListLt a c = true := by
  induction a generalizing b c with
  | nil =>
    cases b with
    | nil => simp [charListLt] at h1
    | cons y bs =>
      cases c with
      | nil => simp [charListLt] at h2
      | cons z cs => simp [charListLt]
  | cons x as ih =>
    cases b with
    | nil => simp [charListLt] at h1
    | cons y bs =>
      cases c with
      | nil => simp [charListLt] at h2
      | cons z cs =>
        simp only [charListLt] at h1 h2 ⊢
        by_cases hxy : x.toNat < y.toNat
        · by_cases hyz : y.toNat < z.toNat
          · simp [Nat.lt_trans hxy hyz]
          · by_cases hzy : z.toNat < y.toNat
            · simp [hyz, hzy] at h2
            · have heq : y.toNat = z.toNat :=
                Nat.le_antisymm (Nat.not_lt.mp hzy) (Nat.not_lt.mp hyz)
              have hxz : x.toNat < z.toNat := heq ▸ hxy
              simp [hxz]
        · by_cases hyx : y.toNat < x.toNat
          · simp [hxy, hyx] at h1
          · have heq : x.toNat = y.toNat :=
              Nat.le_antisymm (Nat.not_lt.mp hyx) (Nat.not_lt.mp hxy)
            simp only [hxy, hyx] at h1
            simp only [if_false] at h1
            by_cases hyz : y.toNat < z.toNat
            · have hxz : x.toNat < z.toNat := heq ▸ hyz
              simp [hxz]
            · by_cases hzy : z.toNat < y.toNat
              · simp [hyz, hzy] at h2
              · simp only [hyz, hzy] at h2
                simp only [if_false] at h2
                have hxz1 : ¬ x.toNat < z.toNat := by rw [heq]; exact hyz
                have hzx1 : ¬ z.toNat < x.toNat := by rw [heq]; exact hzy
                simp [hxz1, hzx1]
                exact ih (by simpa using h1) (by simpa using h2)

/-- Helper: the char-list order is total on distinct lists. -/
theorem charListLt_total {a b : List Char} (hne : a ≠ b)
    (h : charListLt a b = false) : charListLt b a = true := by
  induction a generalizing b with
  | nil =>
    cases b with
    | nil => exact absurd rfl hne
    | cons y bs => simp [charListLt] at h
  | cons x as ih =>
    cases b with
    | nil => simp [charListLt]
    | cons y bs =>
      simp only [charListLt] at h ⊢
      by_cases hxy : x.toNat < y.toNat
      · simp [hxy] at h
      · by_cases hyx : y.toNat < x.toNat
        · simp [hyx]
        · have heq : x.toNat = y.toNat :=
            Nat.le_antisymm (Nat.not_lt.mp hyx) (Nat.not_lt.mp hxy)
          have hch : x = y := Char.ext_iff.mpr (UInt32.ext_iff.mpr heq)
          subst hch
          simp only [hxy, hyx] at h ⊢
          simp only [if_false] at h ⊢
          have hne2 : as ≠ bs := by
            intro hh
            exact hne (by rw [hh])
          simpa using ih hne2 (by simpa using h)

/-- Helper: the string order is irreflexive. -/
theorem strLt_irrefl (s : String) : strLt s s = false :=
  charListLt_irrefl s.data

/-- Helper: the string order is transitive. -/
theorem strLt_trans {a b c : String} (h1 : strLt a b = true)
    (h2 : strLt b c = true) : strLt a c = true :=
  charListLt_trans h1 h2

/-- Helper: the string order is total on distinct strings. -/
theorem strLt_total {a b : String} (hne : a ≠ b) (h : strLt a b = false) :
    strLt b a = true := by
  apply charListLt_total
  · intro hd
    apply hne
    cases a with
    | mk da =>
      cases b with
      | mk db => simp only at hd; rw [hd]
  · exact h

/-- Helper: grouped insertion on a matching head key appends to its group. -/
theorem insertGrouped_eq_same {k k2 : String} (v : Instance)
    (vs : List Instance) (rest : List (String × List Instance))
    (hkk : k = k2) :
    insertGrouped strLt k v ((k2, vs) :: rest) = (k2, vs ++ [v]) :: rest := by
  simp [insertGrouped, hkk]

/-- Helper: grouped insertion before a larger head key prepends a new
group. -/
theorem insertGrouped_eq_lt {k k2 : String} (v : Instance)
    (vs : List Instance) (rest : List (String × List Instance))
    (hkk : ¬ k = k2) (hlt : strLt k k2 = true) :
    insertGrouped strLt k v ((k2, vs) :: rest) =
      (k, [v]) :: (k2, vs) :: rest := by
  simp [insertGrouped, hkk, hlt]

/-- Helper: grouped insertion after a smaller head key recurses into the
tail. -/
theorem insertGrouped_eq_gt {k k2 : String} (v : Instance)
    (vs : List Instance) (rest : List (String × List Instance))
    (hkk : ¬ k = k2) (hlt : strLt k k2 = false) :
    insertGrouped strLt k v ((k2, vs) :: rest) =
      (k2, vs) :: insertGrouped strLt k v rest := by
  simp [insertGrouped, hkk, hlt]

/-- Helper: a key in the result of a grouped insertion is the inserted key or
one of the old keys. -/
theorem mem_keys_insertGrouped {x k : String} {v : Instance}
    {gs : List (String × List Instance)} :
    x ∈ (insertGrouped strLt k v gs).map Prod.fst →
      x = k ∨ x ∈ gs.map Prod.fst := by
  induction gs with
  | nil =>
    intro h
    simp [insertGrouped] at h
    exact Or.inl h
  | cons g rest ih =>
    obtain ⟨k2, vs⟩ := g
    intro h
    by_cases hkk : k = k2
    · rw [insertGrouped_eq_same v vs rest hkk] at h
      simp only [List.map_cons, List.mem_cons] at h ⊢
      tauto
    · by_cases hlt : strLt k k2 = true
      · rw [insertGrouped_eq_lt v vs rest hkk hlt] at h
        simp only [List.map_cons, List.mem_cons] at h ⊢
        tauto
      · have hlt2 : strLt k k2 = false := by
          cases hv : strLt k k2
          · rfl
          · exact absurd hv hlt
        rw [insertGrouped_eq_gt v vs rest hkk hlt2] at h
        simp only [List.map_cons, List.mem_cons] at h ⊢
        rcases h with h | h
        · exact Or.inr (Or.inl h)
        · rcases ih h with h2 | h2
          · exact Or.inl h2
          · exact Or.inr (Or.inr h2)

/-- Helper: grouped insertion preserves strict ascending order of the keys. -/
theorem insertGrouped_sorted (k : String) (v : Instance)
    (gs : List (String × List Instance)) :
    (gs.map Prod.fst).Pairwise (fun a b => strLt a b = true) →
    ((insertGrouped strLt k v gs).map Prod.fst).Pairwise
      (fun a b => strLt a b = true) := by
  induction gs with
  | nil => intro _; simp [insertGrouped]
  | cons g rest ih =>
    obtain ⟨k2, vs⟩ := g
    intro h
    simp only [List.map_cons, List.pairwise_cons] at h
    obtain ⟨hk2, hrest⟩ := h
    by_cases hkk : k = k2
    · rw [insertGrouped_eq_same v vs rest hkk]
      simp only [List.map_cons, List.pairwise_cons]
      exact ⟨hk2, hrest⟩
    · by_cases hlt : strLt k k2 = true
      · rw [insertGrouped_eq_lt v vs rest hkk hlt]
        simp only [List.map_cons, List.pairwise_cons]
        refine ⟨?_, hk2, hrest⟩
        intro x hx
        rcases List.mem_cons.mp hx with hx | hx
        · rw [hx]; exact hlt
        · exact strLt_trans hlt (hk2 x hx)
      · have hlt2 : strLt k k2 = false := by
          cases hv : strLt k k2
          · rfl
          · exact absurd hv hlt
        rw [insertGrouped_eq_gt v vs rest hkk hlt2]
        simp only [List.map_cons, List.pairwise_cons]
        refine ⟨?_, ih hrest⟩
        intro x hx
        rcases mem_keys_insertGrouped hx with hx2 | hx2
        · rw [hx2]
          exact strLt_total hkk hlt2
        · exact hk2 x hx2

/-- Helper: folding grouped insertions over any sorted accumulator keeps the
keys sorted. -/
theorem foldl_insertGrouped_sorted (l : List Instance)
    (acc : List (String × List Instance))
    (h : (acc.map Prod.fst).Pairwise (fun a b => strLt a b = true)) :
    (((l.foldl (fun acc2 i => insertGrouped strLt i.meta.version i acc2)
        acc).map Prod.fst).Pairwise (fun a b => strLt a b = true)) := by
  induction l generalizing acc with
  | nil => simpa using h
  | cons i rest ih =>
    exact ih _ (insertGrouped_sorted i.meta.version i acc h)

/-- Helper: the major-version grouping produces pairwise distinct keys. -/
theorem groupByMajor_keys_nodup (l : List Instance) :
    ((groupByMajor l).map Prod.fst).Nodup := by
  have hs := foldl_insertGrouped_sorted l [] (by simp)
  refine List.Pairwise.imp ?_ hs
  intro a b hab heq
  rw [heq, strLt_irrefl] at hab
  exact absurd hab (by simp)

/-- Helper: the best-effort stop loop emits no install event. -/
theorem stopLoop_no_install (env : Env) (l : List Instance) (s : Settings) :
    Event.installPkg s ∉ (stopLoop env l).1 := by
  induction l with
  | nil => simp [stopLoop]
  | cons i rest ih =>
    cases h1 : env.get_control_ok i.name with
    | false => simp [stopLoop, h1]
    | true =>
      rcases hr : stopLoop env rest with ⟨t, ok⟩
      rw [hr] at ih
      simp only at ih
      cases h2 : env.stop_ok i.name <;> simp [stopLoop, h1, h2, hr, ih]

/-- Helper: the start loop emits no install event. -/
theorem startLoop_no_install (env : Env) (l : List Instance) (s : Settings) :
    Event.installPkg s ∉ (startLoop env l).1 := by
  induction l with
  | nil => simp [startLoop]
  | cons i rest ih =>
    cases h1 : env.get_control_ok i.name with
    | false => simp [startLoop, h1]
    | true =>
      rcases hr : startLoop env rest with ⟨t, ok⟩
      rw [hr] at ih
      simp only at ih
      cases h2 : env.start_ok i.name <;> simp [startLoop, h1, h2, hr, ih]

/-- Helper: when every control handle is obtainable, the best-effort stop
loop always succeeds. -/
theorem stopLoop_ok (env : Env) (l : List Instance)
    (hctl : ∀ n, env.get_control_ok n = true) :
    (stopLoop env l).2 = true := by
  induction l with
  | nil => simp [stopLoop]
  | cons i rest ih =>
    rcases hr : stopLoop env rest with ⟨t, ok⟩
    rw [hr] at ih
    simp only at ih
    cases h2 : env.stop_ok i.name <;>
      simp [stopLoop, hctl i.name, h2, hr, ih]

/-- Helper: every install event of a minor-upgrade group body carries that
group's settings, so in particular that group's major version. -/
theorem minorGroupBody_install (env : Env) (method : InstallMethod)
    (version : String) (l : List Instance) (new : InstallCandidate)
    (s : Settings)
    (h : Event.installPkg s ∈ (minorGroupBody env method version l new).1) :
    s = { method := method, package_name := new.package_name
        , major_version := version, version := new.version
        , nightly := false, extra := [] } := by
  rcases hstop : stopLoop env l with ⟨t1, ok1⟩
  have hs1 := stopLoop_no_install env l s
  rw [hstop] at hs1
  simp only at hs1
  cases ok1 with
  | false =>
    simp only [minorGroupBody, hstop] at h
    simp at h
    exact absurd h hs1
  | true =>
    cases hio : env.install_ok with
    | false =>
      simp only [minorGroupBody, hstop, hio] at h
      simp at h
      rcases h with h | h
      · exact absurd h hs1
      · exact h
    | true =>
      rcases hstart : startLoop env l with ⟨t3, ok3⟩
      have hs3 := startLoop_no_install env l s
      rw [hstart] at hs3
      simp only at hs3
      simp only [minorGroupBody, hstop, hio, hstart] at h
      simp at h
      rcases h with h | h | h
      · exact absurd h hs1
      · exact h
      · exact absurd h hs3

/-- Helper: when every control handle is obtainable, the minor-upgrade group
body emits its install event. -/
theorem minorGroupBody_install_mem (env : Env) (method : InstallMethod)
    (version : String) (l : List Instance) (new : InstallCandidate)
    (hctl : ∀ n, env.get_control_ok n = true) :
    Event.installPkg
      { method := method, package_name := new.package_name
      , major_version := version, version := new.version
      , nightly := false, extra := [] } ∈
      (minorGroupBody env method version l new).1 := by
  rcases hstop : stopLoop env l with ⟨t1, ok1⟩
  have hok := stopLoop_ok env l hctl
  rw [hstop] at hok
  simp only at hok
  subst hok
  cases hio : env.install_ok with
  | false => simp [minorGroupBody, hstop, hio]
  | true =>
    rcases hstart : startLoop env l with ⟨t3, ok3⟩
    simp [minorGroupBody, hstop, hio, hstart]

/-- Helper: the dump step never renames any directory. -/
theorem dump_instance_no_rename (env : Env) (i : Instance) (src dst : String) :
    Event.renameDir src dst ∉ (dump_instance env i).1 := by
  simp only [dump_instance]
  split_ifs <;> simp

/-- Helper: dump-and-stop never renames any directory. -/
theorem dump_and_stop_no_rename (env : Env) (i : Instance) (src dst : String) :
    Event.renameDir src dst ∉ (dump_and_stop env i).1 := by
  cases h1 : env.get_control_ok i.name with
  | false => simp [dump_and_stop, h1]
  | true =>
  cases h2 : env.start_ok i.name with
  | false => simp [dump_and_stop, h1, h2]
  | true =>
  cases h3 : env.get_socket_ok i.name with
  | false => simp [dump_and_stop, h1, h2, h3]
  | true =>
    rcases hdi : dump_instance env i with ⟨t1, ok1⟩
    have hnr : Event.renameDir src dst ∉ t1 := by
      have hh := dump_instance_no_rename env i src dst
      rw [hdi] at hh
      simpa using hh
    cases ok1 with
    | false => simp [dump_and_stop, h1, h2, h3, hdi, hnr]
    | true =>
      cases h4 : env.stop_ok i.name with
      | false => simp [dump_and_stop, h1, h2, h3, h4, hdi, hnr]
      | true => simp [dump_and_stop, h1, h2, h3, h4, hdi, hnr]

/-- Helper: dump-and-stop depends only on the instance's name. -/
theorem dump_and_stop_congr (env : Env) (i j : Instance) (h : i.name = j.name) :
    dump_and_stop env i = dump_and_stop env j := by
  simp only [dump_and_stop, dump_instance, h]

/-- Helper: the first event of reinit-and-restore is always the invocation of
the rename of the data directory to its backup path. -/
theorem reinit_head (env : Env) (i : Instance) (v : Version) (n : Bool)
    (m : InstallMethod) :
    (reinit_and_restore env i v n m).1.head? =
      some (Event.renameDir i.data_dir (i.data_dir ++ ".backup")) := by
  cases h1 : env.rename_ok i.name with
  | false => simp [reinit_and_restore, h1]
  | true =>
  cases h2 : env.write_backup_meta_ok i.name with
  | false => simp [reinit_and_restore, h1, h2]
  | true =>
  cases h3 : env.init_ok i.name with
  | false => simp [reinit_and_restore, h1, h2, h3]
  | true =>
  cases h4 : env.get_control_ok i.name with
  | false => simp [reinit_and_restore, h1, h2, h3, h4]
  | true =>
  cases h5 : env.run_command_ok i.name with
  | false => simp [reinit_and_restore, h1, h2, h3, h4, h5]
  | true =>
  cases h6 : env.spawn_ok i.name with
  | false => simp [reinit_and_restore, h1, h2, h3, h4, h5, h6]
  | true =>
  cases h7 : env.get_socket_ok i.name with
  | false => simp [reinit_and_restore, h1, h2, h3, h4, h5, h6, h7]
  | true =>
  cases h8 : env.restore_connect_ok i.name with
  | false => simp [reinit_and_restore, h1, h2, h3, h4, h5, h6, h7, h8]
  | true =>
  cases h9 : env.restore_all_ok i.name with
  | false => simp [reinit_and_restore, h1, h2, h3, h4, h5, h6, h7, h8, h9]
  | true =>
  cases h10 : env.start_ok i.name with
  | false =>
    simp [reinit_and_restore, h1, h2, h3, h4, h5, h6, h7, h8, h9, h10]
  | true =>
    simp [reinit_and_restore, h1, h2, h3, h4, h5, h6, h7, h8, h9, h10]

/-- Helper: when the rename succeeded, the second event of
reinit-and-restore is the `BackupMeta` write inside the backup directory. -/
theorem reinit_take2 (env : Env) (i : Instance) (v : Version) (n : Bool)
    (m : InstallMethod) (hro : env.rename_ok i.name = true) :
    (reinit_and_restore env i v n m).1.take 2 =
      [Event.renameDir i.data_dir (i.data_dir ++ ".backup"),
       Event.writeBackupMetaFile (i.data_dir ++ ".backup" ++ "/backup.json")
         (BackupMeta.mk env.now)] := by
  cases h2 : env.write_backup_meta_ok i.name with
  | false => simp [reinit_and_restore, hro, h2]
  | true =>
  cases h3 : env.init_ok i.name with
  | false => simp [reinit_and_restore, hro, h2, h3]
  | true =>
  cases h4 : env.get_control_ok i.name with
  | false => simp [reinit_and_restore, hro, h2, h3, h4]
  | true =>
  cases h5 : env.run_command_ok i.name with
  | false => simp [reinit_and_restore, hro, h2, h3, h4, h5]
  | true =>
  cases h6 : env.spawn_ok i.name with
  | false => simp [reinit_and_restore, hro, h2, h3, h4, h5, h6]
  | true =>
  cases h7 : env.get_socket_ok i.name with
  | false => simp [reinit_and_restore, hro, h2, h3, h4, h5, h6, h7]
  | true =>
  cases h8 : env.restore_connect_ok i.name with
  | false => simp [reinit_and_restore, hro, h2, h3, h4, h5, h6, h7, h8]
  | true =>
  cases h9 : env.restore_all_ok i.name with
  | false => simp [reinit_and_restore, hro, h2, h3, h4, h5, h6, h7, h8, h9]
  | true =>
  cases h10 : env.start_ok i.name with
  | false =>
    simp [reinit_and_restore, hro, h2, h3, h4, h5, h6, h7, h8, h9, h10]
  | true =>
    simp [reinit_and_restore, hro, h2, h3, h4, h5, h6, h7, h8, h9, h10]

/-- Helper: if a major-version group passes the up-to-date check (force
unset, installed at least the candidate), the minor-upgrade loop emits no
install event for that group's major version, whatever the rest of the
groups look like. -/
theorem minorGo_skip_no_install (env : Env) (method : InstallMethod)
    (v : String) (insts : List Instance)
    (new : InstallCandidate) (vers : List InstalledRecord) (old : Version)
    (hgv : env.get_version (VersionQuery.stable (some v)) = some new)
    (hiv : env.installed_versions = some vers)
    (hold : findInstalled (VersionQuery.stable (some v)) vers = some old)
    (hge : vge old new.full_version = true) :
    ∀ gs : List (String × List Instance), (v, insts) ∈ gs →
      ∀ s, Event.installPkg s ∈ (minorGo env method false gs).1 →
        s.major_version ≠ v := by
  intro gs
  induction gs with
  | nil => intro hmem; cases hmem
  | cons g rest ih =>
    obtain ⟨v2, insts2⟩ := g
    intro hmem s hs
    rcases hgv2 : env.get_version (VersionQuery.stable (some v2)) with _ | new2
    · simp [minorGo, hgv2] at hs
    · cases hsc : (match findInstalled (VersionQuery.stable (some v2)) vers with
                   | some old_ver => vge old_ver new2.full_version
                   | none => false) with
      | true => simp [minorGo, hgv2, hiv, hsc] at hs
      | false =>
        have hvne : v2 ≠ v := by
          intro heq
          subst heq
          rw [hgv2] at hgv
          injection hgv with hnew
          subst hnew
          rw [hold] at hsc
          simp [hge] at hsc
        have hmem2 : (v, insts) ∈ rest := by
          rcases List.mem_cons.mp hmem with heq | hmem2
          · exact absurd (congrArg Prod.fst heq).symm hvne
          · exact hmem2
        simp only [minorGo, hgv2, hiv, hsc, Bool.and_false, Bool.not_false,
          Bool.and_true] at hs
        rcases hb : minorGroupBody env method v2 (insts2.map (fun i =>
            { i with
              source := findInstalled (VersionQuery.stable (some v2)) vers,
              version := some new2.full_version })) new2 with ⟨tb, okb⟩
        rw [hb] at hs
        have hbody : ∀ hmb : Event.installPkg s ∈ tb, s.major_version ≠ v := by
          intro hmb
          have hmb2 : Event.installPkg s ∈
              (minorGroupBody env method v2 (insts2.map (fun i =>
                { i with
                  source := findInstalled (VersionQuery.stable (some v2)) vers,
                  version := some new2.full_version })) new2).1 := by
            rw [hb]; exact hmb
          have hset := minorGroupBody_install env method v2 _ new2 s hmb2
          rw [hset]
          simpa using hvne
        cases okb with
        | false =>
          simp at hs
          exact hbody hs
        | true =>
          simp at hs
          rcases hs with hs | hs
          · exact hbody hs
          · exact ih hmem2 s hs

/-- Helper: when the head group's up-to-date check does not fire and every
control handle is obtainable, the minor-upgrade loop emits the head group's
install event. -/
theorem minorGo_head_install (env : Env) (method : InstallMethod)
    (v : String) (insts : List Instance)
    (rest : List (String × List Instance))
    (new : InstallCandidate) (vers : List InstalledRecord) (force : Bool)
    (hgv : env.get_version (VersionQuery.stable (some v)) = some new)
    (hiv : env.installed_versions = some vers)
    (hsc : (!force &&
            (match findInstalled (VersionQuery.stable (some v)) vers with
             | some o => vge o new.full_version
             | none => false)) = false)
    (hctl : ∀ n, env.get_control_ok n = true) :
    Event.installPkg
      { method := method, package_name := new.package_name
      , major_version := v, version := new.version
      , nightly := false, extra := [] } ∈
      (minorGo env method force ((v, insts) :: rest)).1 := by
  simp only [minorGo, hgv, hiv, hsc, Bool.false_eq_true, if_false]
  rcases hb : minorGroupBody env method v (insts.map (fun i =>
      { i with
        source := findInstalled (VersionQuery.stable (some v)) vers,
        version := some new.full_version })) new with ⟨tb, okb⟩
  have hmemb := minorGroupBody_install_mem env method v (insts.map (fun i =>
      { i with
        source := findInstalled (VersionQuery.stable (some v)) vers,
        version := some new.full_version })) new hctl
  rw [hb] at hmemb
  simp only at hmemb
  rcases hgo : minorGo env method force rest with ⟨t4, ok4⟩
  simp only [hb]
  cases okb <;> simp [hgo, hmemb]

/-- Helper: under working control, start, socket and connection oracles and
no stale dump, dump-and-stop invokes the logical dump. -/
theorem dump_and_stop_dump_mem (env : Env) (i : Instance)
    (hc1 : env.get_control_ok i.name = true)
    (hc2 : env.start_ok i.name = true)
    (hc3 : env.get_socket_ok i.name = true)
    (hc4 : env.dump_path_exists i.name = false)
    (hc5 : env.dump_connect_ok i.name = true) :
    Event.dumpAll i.name ∈ (dump_and_stop env i).1 := by
  cases h6 : env.dump_all_ok i.name <;> cases h7 : env.stop_ok i.name <;>
    simp [dump_and_stop, dump_instance, hc1, hc2, hc3, hc4, hc5, h6, h7]

/-- Helper: when the up-to-date check does not fire, the single-instance
upgrade invokes the logical dump. -/
theorem do_instance_dump_mem (env : Env) (method : InstallMethod)
    (inst : Instance) (q : VersionQuery) (options : Upgrade)
    (new : InstallCandidate) (vers : List InstalledRecord)
    (hgv : env.get_version q = some new)
    (hiv : env.installed_versions = some vers)
    (hsc : (!options.force &&
            (match findInstalled q vers with
             | some o => vge o new.full_version
             | none => false)) = false)
    (hc1 : env.get_control_ok inst.name = true)
    (hc2 : env.start_ok inst.name = true)
    (hc3 : env.get_socket_ok inst.name = true)
    (hc4 : env.dump_path_exists inst.name = false)
    (hc5 : env.dump_connect_ok inst.name = true) :
    Event.dumpAll inst.name ∈
      (do_instance_upgrade env method inst q options).1 := by
  simp only [do_instance_upgrade, hgv, hiv, hsc, Bool.false_eq_true, if_false]
  rcases hd : dump_and_stop env
      { inst with source := findInstalled q vers,
                  version := some new.full_version } with ⟨td, okd⟩
  have hmem := dump_and_stop_dump_mem env
    { inst with source := findInstalled q vers,
                version := some new.full_version } hc1 hc2 hc3 hc4 hc5
  rw [hd] at hmem
  simp only at hmem
  rcases hrr : reinit_and_restore env
      { inst with source := findInstalled q vers,
                  version := some new.full_version }
      new.version q.is_nightly method with ⟨t3, ok3⟩
  cases okd <;> cases hio : env.install_ok <;> simp [hd, hio, hrr, hmem]

/-- Helper: when the up-to-date check does not fire, the nightly upgrade
invokes the logical dump on the first instance. -/
theorem do_nightly_dump_mem (env : Env) (method : InstallMethod)
    (i : Instance) (rest : List Instance) (options : Upgrade)
    (new : InstallCandidate) (vers : List InstalledRecord)
    (hgv : env.get_version VersionQuery.nightly = some new)
    (hiv : env.installed_versions = some vers)
    (hsc : (!options.force &&
            (match findInstalled VersionQuery.nightly vers with
             | some o => vge o new.full_version
             | none => false)) = false)
    (hc1 : env.get_control_ok i.name = true)
    (hc2 : env.start_ok i.name = true)
    (hc3 : env.get_socket_ok i.name = true)
    (hc4 : env.dump_path_exists i.name = false)
    (hc5 : env.dump_connect_ok i.name = true) :
    Event.dumpAll i.name ∈
      (do_nightly_upgrade env method (i :: rest) options).1 := by
  simp only [do_nightly_upgrade, hgv, hiv, hsc, Bool.false_eq_true, if_false,
    List.map_cons]
  rcases hd : dump_and_stop env
      { i with source := findInstalled VersionQuery.nightly vers,
               version := some new.full_version } with ⟨td, okd⟩
  have hmem := dump_and_stop_dump_mem env
    { i with source := findInstalled VersionQuery.nightly vers,
             version := some new.full_version } hc1 hc2 hc3 hc4 hc5
  rw [hd] at hmem
  simp only at hmem
  rcases hdl : dumpLoop env (rest.map (fun i2 =>
      { i2 with source := findInstalled VersionQuery.nightly vers,
                version := some new.full_version })) with ⟨t2, ok2⟩
  rcases hrl : reinitLoop env new.major_version true method
      (({ i with source := findInstalled VersionQuery.nightly vers,
                 version := some new.full_version } : Instance) ::
        rest.map (fun i2 =>
          { i2 with source := findInstalled VersionQuery.nightly vers,
                    version := some new.full_version })) with ⟨t3, ok3⟩
  cases okd <;> cases ok2 <;> cases hio : env.install_ok <;>
    simp [dumpLoop, hd, hdl, hio, hrl, hmem]

/-- C2: in a cross-version upgrade, the rename of the data directory to
`<dataDir>.backup` is the first effect of reinit-and-restore, immediately
followed (when the rename succeeded) by writing the `BackupMeta` timestamp
file inside the backup; a fatal failure during dump-and-stop leaves the data
directory untouched (no rename is ever invoked), and the rename is invoked
if and only if execution reached reinit-and-restore, that is, the up-to-date
skip was not taken and both dump-and-stop and the package install
succeeded. -/
theorem backup_rename_boundary (env : Env) (method : InstallMethod)
    (inst : Instance) (version : Version) (nightly : Bool)
    (q : VersionQuery) (options : Upgrade)
    (new : InstallCandidate) (vers : List InstalledRecord)
    (hgv : env.get_version q = some new)
    (hiv : env.installed_versions = some vers) :
    ((reinit_and_restore env inst version nightly method).1.head? =
      some (Event.renameDir inst.data_dir (inst.data_dir ++ ".backup"))) ∧
    (env.rename_ok inst.name = true →
      (reinit_and_restore env inst version nightly method).1.take 2 =
        [Event.renameDir inst.data_dir (inst.data_dir ++ ".backup"),
         Event.writeBackupMetaFile
           (inst.data_dir ++ ".backup" ++ "/backup.json") ⟨env.now⟩]) ∧
    ((dump_and_stop env inst).2 = false →
      ∀ src dst, Event.renameDir src dst ∉
        (do_instance_upgrade env method inst q options).1) ∧
    (Event.renameDir inst.data_dir (inst.data_dir ++ ".backup") ∈
        (do_instance_upgrade env method inst q options).1 ↔
      ((!options.force &&
          (match findInstalled q vers with
           | some old_ver => vge old_ver new.full_version
           | none => false)) = false ∧
       (dump_and_stop env inst).2 = true ∧
       env.install_ok = true)) := by
  refine ⟨reinit_head env inst version nightly method,
    reinit_take2 env inst version nightly method, ?_, ?_⟩
  · intro hds src dst
    cases hsc : (!options.force &&
        (match findInstalled q vers with
         | some old_ver => vge old_ver new.full_version
         | none => false)) with
    | true => simp [do_instance_upgrade, hgv, hiv, hsc]
    | false =>
      rcases hd : dump_and_stop env inst with ⟨td, okd⟩
      rw [hd] at hds
      simp only at hds
      subst hds
      have hd2 : dump_and_stop env
          { inst with source := findInstalled q vers,
                      version := some new.full_version } = (td, false) := by
        rw [dump_and_stop_congr env
          { inst with source := findInstalled q vers,
                      version := some new.full_version } inst rfl]
        exact hd
      have hnr := dump_and_stop_no_rename env inst src dst
      rw [hd] at hnr
      simp only [do_instance_upgrade, hgv, hiv, hsc, hd2]
      simpa using hnr
  · cases hsc : (!options.force &&
        (match findInstalled q vers with
         | some old_ver => vge old_ver new.full_version
         | none => false)) with
    | true => simp [do_instance_upgrade, hgv, hiv, hsc]
    | false =>
      rcases hd : dump_and_stop env inst with ⟨td, okd⟩
      have hd2 : dump_and_stop env
          { inst with source := findInstalled q vers,
                      version := some new.full_version } = (td, okd) := by
        rw [dump_and_stop_congr env
          { inst with source := findInstalled q vers,
                      version := some new.full_version } inst rfl]
        exact hd
      have hnr := dump_and_stop_no_rename env inst inst.data_dir
        (inst.data_dir ++ ".backup")
      rw [hd] at hnr
      simp only at hnr
      cases okd with
      | false =>
        simp only [do_instance_upgrade, hgv, hiv, hsc, hd2, hd]
        simpa using hnr
      | true =>
        cases hio : env.install_ok with
        | false =>
          simp only [do_instance_upgrade, hgv, hiv, hsc, hd2, hd, hio]
          simp
          exact hnr
        | true =>
          have hmem : Event.renameDir inst.data_dir
              (inst.data_dir ++ ".backup") ∈
              (reinit_and_restore env
                { inst with source := findInstalled q vers,
                            version := some new.full_version }
                new.version q.is_nightly method).1 := by
            have hh := reinit_head env
              { inst with source := findInstalled q vers,
                          version := some new.full_version }
              new.version q.is_nightly method
            exact List.mem_of_mem_head? hh
          simp only [do_instance_upgrade, hgv, hiv, hsc, hd2, hd, hio]
          simp [hmem]

theorem backup_rename_boundary_witness :
    (reinit_and_restore envAllOk instFixB "2" false .package).1.head? =
      some (Event.renameDir "/i/b" "/i/b.backup") ∧
    (Event.renameDir "/i/b" "/i/b.backup" ∈
      (do_instance_upgrade envAllOk .package instFixB
        (VersionQuery.stable (some "2")) upNoForce).1) := by
  have h := backup_rename_boundary envAllOk .package instFixB "2" false
    (VersionQuery.stable (some "2")) upNoForce ⟨"edgedb-2", "2", "2", "1"⟩
    [⟨"1", "1", "5", false⟩, ⟨"2", "2", "0", false⟩] rfl rfl
  exact ⟨h.1, h.2.2.2.mpr (by refine ⟨?_, ?_, rfl⟩ <;> decide)⟩

/-- Helper: under a listable entry with a determinable file type, `read_item`
is characterised by `entryWarn` and `entryInstance`. -/
theorem read_item_char (valid_name : String → Bool) (root : String)
    (e : DirEntrySpec) (h1 : e.read_ok = true) (h2 : e.file_type_ok = true) :
    read_item valid_name root e =
      ((entryWarn valid_name e).elim [] (fun n => [Event.warnBadMetadata n]),
       Except.ok (entryInstance valid_name root e)) := by
  cases hd : e.is_dir with
  | false => simp [read_item, entryWarn, entryInstance, h1, h2, hd]
  | true =>
    cases hf : e.file_name with
    | none => simp [read_item, entryWarn, entryInstance, h1, h2, hd, hf]
    | some n =>
      cases hv : valid_name n with
      | false =>
        cases hm : e.metadata with
        | none =>
          simp [read_item, entryWarn, entryInstance, h1, h2, hd, hf, hv, hm]
        | some m =>
          simp [read_item, entryWarn, entryInstance, h1, h2, hd, hf, hv, hm]
      | true =>
        cases hm : e.metadata with
        | none =>
          simp [read_item, entryWarn, entryInstance, h1, h2, hd, hf, hv, hm]
        | some m =>
          simp [read_item, entryWarn, entryInstance, h1, h2, hd, hf, hv, hm]

/-- Helper: an entry that produces a bad-metadata warning produces no
instance. -/
theorem entryWarn_entryInstance_none (valid_name : String → Bool)
    (root : String) (e : DirEntrySpec) (n : String)
    (h : entryWarn valid_name e = some n) :
    entryInstance valid_name root e = none := by
  cases hd : e.is_dir with
  | false => simp [entryWarn, hd] at h
  | true =>
    cases hro : e.read_ok with
    | false => simp [entryWarn, hro] at h
    | true =>
      cases hft : e.file_type_ok with
      | false => simp [entryWarn, hro, hft] at h
      | true =>
        cases hf : e.file_name with
        | none => simp [entryWarn, hro, hft, hd, hf] at h
        | some n2 =>
          cases hm : e.metadata with
          | none => simp [entryInstance, hro, hft, hd, hf, hm]
          | some m => simp [entryWarn, hro, hft, hd, hf, hm] at h

/-- Helper: when every entry is listable with a determinable file type,
discovery succeeds and is characterised entrywise: one warning per valid-name
directory entry with unreadable metadata, one instance per valid-name
directory entry with readable metadata. -/
theorem instancesLoop_char (valid_name : String → Bool) (root : String)
    (entries : List DirEntrySpec)
    (h : ∀ e ∈ entries, e.read_ok = true ∧ e.file_type_ok = true) :
    instancesLoop valid_name root entries =
      ((entries.filterMap (entryWarn valid_name)).map Event.warnBadMetadata,
       Except.ok (entries.filterMap (entryInstance valid_name root))) := by
  induction entries with
  | nil => simp [instancesLoop]
  | cons a rest ih =>
    have hro := (h a (List.mem_cons_self a rest)).1
    have hft := (h a (List.mem_cons_self a rest)).2
    have hri := read_item_char valid_name root a hro hft
    have ihh := ih (fun e he => h e (List.mem_cons_of_mem a he))
    cases hw : entryWarn valid_name a with
    | some n =>
      have hni := entryWarn_entryInstance_none valid_name root a n hw
      simp [instancesLoop, hri, hw, hni, ihh, List.filterMap_cons]
    | none =>
      cases hi : entryInstance valid_name root a with
      | none => simp [instancesLoop, hri, hw, hi, ihh, List.filterMap_cons]
      | some i => simp [instancesLoop, hri, hw, hi, ihh, List.filterMap_cons]

/-- C4: when every directory entry under the instances root is listable,
discovery does not fail as a whole: it returns exactly the instances of the
entries with readable metadata, and every valid-name directory entry whose
metadata cannot be read or parsed is excluded from the result and yields a
warning naming that instance in the emitted log. -/
theorem discovery_skips_bad_metadata (valid_name : String → Bool)
    (root : String) (entries : List DirEntrySpec)
    (h : ∀ e ∈ entries, e.read_ok = true ∧ e.file_type_ok = true) :
    (instancesLoop valid_name root entries).2 =
      Except.ok (entries.filterMap (entryInstance valid_name root)) ∧
    (∀ e ∈ entries, ∀ n, entryWarn valid_name e = some n →
      Event.warnBadMetadata n ∈ (instancesLoop valid_name root entries).1 ∧
      entryInstance valid_name root e = none) := by
  have hchar := instancesLoop_char valid_name root entries h
  constructor
  · rw [hchar]
  · intro e he n hw
    refine ⟨?_, entryWarn_entryInstance_none valid_name root e n hw⟩
    rw [hchar]
    exact List.mem_map_of_mem Event.warnBadMetadata
      (List.mem_filterMap.mpr ⟨e, he, hw⟩)

theorem discovery_skips_bad_metadata_witness :
    (∀ e ∈ [goodEntryFix, badMetaEntryFix],
        e.read_ok = true ∧ e.file_type_ok = true) ∧
    (instancesLoop validAllFix "/i" [goodEntryFix, badMetaEntryFix]).2 =
      Except.ok [⟨"a", ⟨.package, "1", false, 5656, .auto⟩, false, "/i/a",
                  none, none⟩] ∧
    Event.warnBadMetadata "z" ∈
      (instancesLoop validAllFix "/i" [goodEntryFix, badMetaEntryFix]).1 := by
  have hpre : ∀ e ∈ [goodEntryFix, badMetaEntryFix],
      e.read_ok = true ∧ e.file_type_ok = true := by decide
  have h := discovery_skips_bad_metadata validAllFix "/i"
    [goodEntryFix, badMetaEntryFix] hpre
  exact ⟨hpre, by rw [h.1]; rfl,
    (h.2 badMetaEntryFix (by decide) "z" (by decide)).1⟩

theorem reinit_server_always_killed_witness :
    Event.runServer "b" ∈
      (reinit_and_restore
        { envAllOk with restore_all_ok := fun _ => false }
        instFixB "2" false .package).1 ∧
    Event.killServer "b" ∈
      (reinit_and_restore
        { envAllOk with restore_all_ok := fun _ => false }
        instFixB "2" false .package).1 :=
  ⟨by decide,
   reinit_server_always_killed
     { envAllOk with restore_all_ok := fun _ => false }
     instFixB "2" false .package (by decide)⟩


/-- C7: on each of the three upgrade paths, when force is unset and an
installed version matches the query, the destructive sequence is executed
only if the resolved candidate is strictly greater: if the installed version
is at least the candidate, the single-instance and nightly paths reduce to
the skip log alone, and the minor path emits no install for that
major-version group; with force set the check is bypassed and the
destructive sequence begins (the dump is invoked on the cross-version paths
and the group's install on the minor path). -/
theorem upgrade_skip_check :
    (∀ (env : Env) (method : InstallMethod) (inst : Instance)
        (q : VersionQuery) (options : Upgrade) (new : InstallCandidate)
        (vers : List InstalledRecord) (old : Version),
      options.force = false →
      env.get_version q = some new →
      env.installed_versions = some vers →
      findInstalled q vers = some old →
      vge old new.full_version = true →
      do_instance_upgrade env method inst q options =
        ([Event.infoUpToDateSkip [inst.name]], true)) ∧
    (∀ (env : Env) (method : InstallMethod) (inst : Instance)
        (q : VersionQuery) (options : Upgrade) (new : InstallCandidate)
        (vers : List InstalledRecord),
      options.force = true →
      env.get_version q = some new →
      env.installed_versions = some vers →
      env.get_control_ok inst.name = true →
      env.start_ok inst.name = true →
      env.get_socket_ok inst.name = true →
      env.dump_path_exists inst.name = false →
      env.dump_connect_ok inst.name = true →
      Event.dumpAll inst.name ∈
        (do_instance_upgrade env method inst q options).1) ∧
    (∀ (env : Env) (method : InstallMethod) (instances : List Instance)
        (options : Upgrade) (new : InstallCandidate)
        (vers : List InstalledRecord) (old : Version),
      options.force = false →
      env.get_version VersionQuery.nightly = some new →
      env.installed_versions = some vers →
      findInstalled VersionQuery.nightly vers = some old →
      vge old new.full_version = true →
      do_nightly_upgrade env method instances options =
        ([Event.infoUpToDateSkip (instances.map (fun i => i.name))], true)) ∧
    (∀ (env : Env) (method : InstallMethod) (i : Instance)
        (rest : List Instance) (options : Upgrade) (new : InstallCandidate)
        (vers : List InstalledRecord),
      options.force = true →
      env.get_version VersionQuery.nightly = some new →
      env.installed_versions = some vers →
      env.get_control_ok i.name = true →
      env.start_ok i.name = true →
      env.get_socket_ok i.name = true →
      env.dump_path_exists i.name = false →
      env.dump_connect_ok i.name = true →
      Event.dumpAll i.name ∈
        (do_nightly_upgrade env method (i :: rest) options).1) ∧
    (∀ (env : Env) (method : InstallMethod) (instances : List Instance)
        (options : Upgrade) (v : String) (insts : List Instance)
        (new : InstallCandidate) (vers : List InstalledRecord) (old : Version),
      options.force = false →
      (v, insts) ∈ groupByMajor instances →
      env.get_version (VersionQuery.stable (some v)) = some new →
      env.installed_versions = some vers →
      findInstalled (VersionQuery.stable (some v)) vers = some old →
      vge old new.full_version = true →
      ∀ s, Event.installPkg s ∈
          (do_minor_upgrade env method instances options).1 →
        s.major_version ≠ v) ∧
    (∀ (env : Env) (method : InstallMethod) (instances : List Instance)
        (options : Upgrade) (v : String) (insts : List Instance)
        (rest : List (String × List Instance)) (new : InstallCandidate)
        (vers : List InstalledRecord),
      options.force = true →
      groupByMajor instances = (v, insts) :: rest →
      env.get_version (VersionQuery.stable (some v)) = some new →
      env.installed_versions = some vers →
      (∀ n, env.get_control_ok n = true) →
      Event.installPkg
        { method := method, package_name := new.package_name
        , major_version := v, version := new.version
        , nightly := false, extra := [] } ∈
        (do_minor_upgrade env method instances options).1) := by
  refine ⟨?_, ?_, ?_, ?_, ?_, ?_⟩
  · intro env method inst q options new vers old hf hgv hiv hold hge
    simp [do_instance_upgrade, hgv, hiv, hf, hold, hge]
  · intro env method inst q options new vers hf hgv hiv hc1 hc2 hc3 hc4 hc5
    exact do_instance_dump_mem env method inst q options new vers hgv hiv
      (by rw [hf]; simp) hc1 hc2 hc3 hc4 hc5
  · intro env method instances options new vers old hf hgv hiv hold hge
    simp [do_nightly_upgrade, hgv, hiv, hf, hold, hge]
  · intro env method i rest options new vers hf hgv hiv hc1 hc2 hc3 hc4 hc5
    exact do_nightly_dump_mem env method i rest options new vers hgv hiv
      (by rw [hf]; simp) hc1 hc2 hc3 hc4 hc5
  · intro env method instances options v insts new vers old hf hmem hgv hiv
      hold hge s hs
    simp only [do_minor_upgrade, hf] at hs
    exact minorGo_skip_no_install env method v insts new vers old hgv hiv
      hold hge (groupByMajor instances) hmem s hs
  · intro env method instances options v insts rest new vers hf hgroup hgv
      hiv hctl
    simp only [do_minor_upgrade, hf, hgroup]
    exact minorGo_head_install env method v insts rest new vers true hgv hiv
      (by simp) hctl

theorem upgrade_skip_check_witness :
    do_instance_upgrade envAllOk .package instFixA
        (VersionQuery.stable (some "1")) upNoForce =
      ([Event.infoUpToDateSkip ["a"]], true) :=
  upgrade_skip_check.1 envAllOk .package instFixA
    (VersionQuery.stable (some "1")) upNoForce
    ⟨"edgedb-1", "1", "1", "5"⟩
    [⟨"1", "1", "5", false⟩, ⟨"2", "2", "0", false⟩] "1-5"
    rfl rfl rfl (by decide) (by decide)

/-- C9: on each of the three upgrade paths, when no installed version matches
the query, the up-to-date check is bypassed entirely and the destructive
sequence proceeds whatever the force flag and the candidate's version: the
dump is invoked on the cross-version paths and the group's install on the
minor path. -/
theorem no_installed_bypasses_check :
    (∀ (env : Env) (method : InstallMethod) (inst : Instance)
        (q : VersionQuery) (options : Upgrade) (new : InstallCandidate)
        (vers : List InstalledRecord),
      env.get_version q = some new →
      env.installed_versions = some vers →
      findInstalled q vers = none →
      env.get_control_ok inst.name = true →
      env.start_ok inst.name = true →
      env.get_socket_ok inst.name = true →
      env.dump_path_exists inst.name = false →
      env.dump_connect_ok inst.name = true →
      Event.dumpAll inst.name ∈
        (do_instance_upgrade env method inst q options).1) ∧
    (∀ (env : Env) (method : InstallMethod) (i : Instance)
        (rest : List Instance) (options : Upgrade) (new : InstallCandidate)
        (vers : List InstalledRecord),
      env.get_version VersionQuery.nightly = some new →
      env.installed_versions = some vers →
      findInstalled VersionQuery.nightly vers = none →
      env.get_control_ok i.name = true →
      env.start_ok i.name = true →
      env.get_socket_ok i.name = true →
      env.dump_path_exists i.name = false →
      env.dump_connect_ok i.name = true →
      Event.dumpAll i.name ∈
        (do_nightly_upgrade env method (i :: rest) options).1) ∧
    (∀ (env : Env) (method : InstallMethod) (instances : List Instance)
        (options : Upgrade) (v : String) (insts : List Instance)
        (rest : List (String × List Instance)) (new : InstallCandidate)
        (vers : List InstalledRecord),
      groupByMajor instances = (v, insts) :: rest →
      env.get_version (VersionQuery.stable (some v)) = some new →
      env.installed_versions = some vers →
      findInstalled (VersionQuery.stable (some v)) vers = none →
      (∀ n, env.get_control_ok n = true) →
      Event.installPkg
        { method := method, package_name := new.package_name
        , major_version := v, version := new.version
        , nightly := false, extra := [] } ∈
        (do_minor_upgrade env method instances options).1) := by
  refine ⟨?_, ?_, ?_⟩
  · intro env method inst q options new vers hgv hiv hnone hc1 hc2 hc3 hc4 hc5
    exact do_instance_dump_mem env method inst q options new vers hgv hiv
      (by simp [hnone]) hc1 hc2 hc3 hc4 hc5
  · intro env method i rest options new vers hgv hiv hnone hc1 hc2 hc3 hc4 hc5
    exact do_nightly_dump_mem env method i rest options new vers hgv hiv
      (by simp [hnone]) hc1 hc2 hc3 hc4 hc5
  · intro env method instances options v insts rest new vers hgroup hgv hiv
      hnone hctl
    simp only [do_minor_upgrade, hgroup]
    exact minorGo_head_install env method v insts rest new vers options.force
      hgv hiv (by simp [hnone]) hctl

theorem no_installed_bypasses_check_witness :
    Event.dumpAll "b" ∈
      (do_instance_upgrade { envAllOk with installed_versions := some [] }
        .package instFixB (VersionQuery.stable (some "2")) upNoForce).1 :=
  no_installed_bypasses_check.1
    { envAllOk with installed_versions := some [] } .package instFixB
    (VersionQuery.stable (some "2")) upNoForce
    ⟨"edgedb-2", "2", "2", "1"⟩ [] rfl rfl rfl rfl rfl rfl rfl rfl

/-- Helper: the conflict-detection scan is determined by the first matching
installed record across the instantiated methods. -/
theorem conflictCheck_of_firstMatch (eff : InstallMethod) (q : VersionQuery)
    (ms : List (InstallMethod × Option (List InstalledRecord)))
    (kind : InstallMethod) (r : InstalledRecord)
    (h : firstMatch q ms = some (kind, r)) :
    conflictCheck eff q ms =
      ([if eff = kind then
          Event.msgAlreadyInstalled r.major_version r.version r.revision
        else Event.msgDifferentChannel r.major_version kind eff],
       some (InstallOutcome.exited ALREADY_INSTALLED)) := by
  induction ms with
  | nil => simp [firstMatch] at h
  | cons m rest ih =>
    obtain ⟨k2, vo⟩ := m
    cases vo with
    | none => simp [firstMatch] at h
    | some vers =>
      cases hf : findConflict q vers with
      | some r2 =>
        simp only [firstMatch, hf, Option.some.injEq] at h
        obtain ⟨hk, hr⟩ := Prod.mk.injEq .. ▸ h
        subst hk
        subst hr
        simp [conflictCheck, hf]
      | none =>
        simp only [firstMatch, hf] at h
        simp only [conflictCheck, hf]
        exact ih h

/-- C8: when an already-installed version matching the query exists (the
conflict scan finds a first match) and the earlier gates pass, `install`
terminates with the dedicated `ALREADY_INSTALLED` exit code — distinct from
the error outcome and from the generic failure code — before any install
attempt, printing the same-method message when the match is under the
effective method and the different-channel message otherwise. -/
theorem install_conflict_exits (env : InstallEnv) (options : InstallOptions)
    (kind : InstallMethod) (r : InstalledRecord)
    (h1 : env.current_os_ok = true) (h2 : env.get_available_ok = true)
    (h3 : (options.method.isNone && !options.interactive &&
           !env.package_supported) = false)
    (h4 : env.instantiate_ok = true)
    (h5 : firstMatch (VersionQuery.new options.nightly options.version)
            env.methods = some (kind, r)) :
    (install env options).2 = InstallOutcome.exited ALREADY_INSTALLED ∧
    InstallOutcome.exited ALREADY_INSTALLED ≠ InstallOutcome.err ∧
    ALREADY_INSTALLED ≠ GENERIC_FAILURE ∧
    (∀ s, Event.installPkg s ∉ (install env options).1) ∧
    (install env options).1 =
      [if options.method.getD InstallMethod.package = kind then
         Event.msgAlreadyInstalled r.major_version r.version r.revision
       else Event.msgDifferentChannel r.major_version kind
         (options.method.getD InstallMethod.package)] := by
  have hcc := conflictCheck_of_firstMatch
    (options.method.getD InstallMethod.package)
    (VersionQuery.new options.nightly options.version) env.methods kind r h5
  refine ⟨?_, by simp, by simp [ALREADY_INSTALLED, GENERIC_FAILURE], ?_, ?_⟩
  · simp [install, h1, h2, h3, h4, hcc]
  · intro s
    simp only [install, h1, h2, h3, h4, hcc]
    simp only [Bool.not_true, Bool.false_eq_true, if_false]
    split <;> simp
  · simp [install, h1, h2, h3, h4, hcc]

theorem install_conflict_exits_witness :
    (install installEnvFix installOptsFix).2 =
      InstallOutcome.exited ALREADY_INSTALLED ∧
    (install installEnvFix installOptsFix).1 =
      [Event.msgDifferentChannel "1" .docker .package] := by
  have h := install_conflict_exits installEnvFix installOptsFix .docker
    ⟨"1", "1", "5", false⟩ rfl rfl rfl rfl (by decide)
  refine ⟨h.1, ?_⟩
  rw [h.2.2.2.2]
  rfl

end EdgedbCli
